import Mathlib

/-!
Shallow embedding of the claircore layer-indexing excerpt:
the dpkg package scanner (src/dpkg/scanner.go) and the Ubuntu
distribution scanner (src/ubuntu/distributionscanner.go), together with
the path arithmetic (Go path/filepath: Clean, Base, Dir, Join) and string
helpers (strings.HasPrefix/HasSuffix/TrimSuffix, encoding/hex) that the
scanners use.  Archives are modelled as lists of tar entries; Go's
multi-valued returns are modelled with products and Option; the dpkg
scanner's panic site is kept as an explicit outcome constructor so that
its (un)reachability is a provable statement.  The MD5 digest (Go
crypto/md5, outside this repository) is an abstract parameter of the
dpkg scan; the hex encoding is concrete.
-/

/-! ## Character and string helpers (structural, kernel-reducible) -/

/-- Split a character list at every occurrence of the separator.
Mirrors Go strings.Split semantics: splitting the empty string yields
one empty component. -/
def splitOnChar (sep : Char) : List Char → List (List Char)
  | [] => [[]]
  | c :: cs =>
    let r := splitOnChar sep cs
    if c = sep then [] :: r
    else
      match r with
      | [] => [[c]]
      | h :: t => (c :: h) :: t

/-- Go strings.HasPrefix, on our String representation. -/
def goHasPrefix (s pfx : String) : Bool := pfx.data.isPrefixOf s.data

/-- Go strings.HasSuffix. -/
def goHasSuffix (s suf : String) : Bool := suf.data.isSuffixOf s.data

/-- Go strings.TrimSuffix: drop the suffix when present, else unchanged. -/
def goTrimSuffix (s suf : String) : String :=
  if goHasSuffix s suf then ⟨s.data.take (s.data.length - suf.data.length)⟩ else s

/-- Cut a name at the first colon, mirroring the
`if i := strings.IndexRune(n, ':'); i != -1 { n = n[:i] }` step of the
dpkg metadata pass. -/
def cutColon (s : String) : String :=
  match s.data.findIdx? (fun c => c = ':') with
  | none => s
  | some i => ⟨s.data.take i⟩

/-! ## Go path/filepath on slash-separated paths -/

/-- Element processing of Go filepath.Clean: skip empty and "." elements,
let ".." pop a previous element (or survive at the front of a relative
path, or vanish at the root of a rooted path), and keep everything else.
The accumulator is kept reversed. -/
def cleanRun (rooted : Bool) : List (List Char) → List (List Char) → List (List Char)
  | [], acc => acc
  | c :: rest, acc =>
    if c = [] ∨ c = ['.'] then cleanRun rooted rest acc
    else if c = ['.', '.'] then
      match acc with
      | [] => if rooted then cleanRun rooted rest [] else cleanRun rooted rest [['.', '.']]
      | a :: as =>
        if a = ['.', '.'] then cleanRun rooted rest (c :: acc) else cleanRun rooted rest as
    else cleanRun rooted rest (c :: acc)

/-- Go filepath.Clean for slash-separated (unix) paths. -/
def cleanPath (p : String) : String :=
  if p.data = [] then "."
  else
    let rooted := p.data.head? = some '/'
    let comps := splitOnChar '/' p.data
    let out := (cleanRun rooted comps []).reverse
    let body := List.intercalate ['/'] out
    if rooted then ⟨'/' :: body⟩
    else if body = [] then "." else ⟨body⟩

/-- Go filepath.Base: the last element of the path after dropping
trailing slashes; "." for the empty path, "/" for all-slash paths. -/
def basePath (p : String) : String :=
  if p.data = [] then "."
  else
    let q := (p.data.reverse.dropWhile (fun c => c = '/')).reverse
    if q = [] then "/"
    else ⟨(splitOnChar '/' q).getLastD []⟩

/-- Go filepath.Dir: everything up to and including the final separator,
cleaned; "." when there is no separator. -/
def dirPath (p : String) : String :=
  cleanPath ⟨(p.data.reverse.dropWhile (fun c => c ≠ '/')).reverse⟩

/-- Go filepath.Join on two elements: empty elements are dropped and the
result is cleaned. -/
def joinPath (a b : String) : String :=
  if a.data = [] then (if b.data = [] then "" else cleanPath b)
  else if b.data = [] then cleanPath a
  else cleanPath (a ++ "/" ++ b)

/-- Go encoding/hex digit (lowercase). -/
def hexDigit (n : Nat) : Char :=
  if n < 10 then Char.ofNat (48 + n) else Char.ofNat (87 + n % 16)

/-- Go hex.EncodeToString over a byte list: two lowercase digits per byte. -/
def hexEncode (bs : List Nat) : String :=
  ⟨(bs.map (fun b => [hexDigit (b / 16 % 16), hexDigit (b % 16)])).flatten⟩

/-! ## Tar archives and the claircore data model -/

/-- Tar entry type flag; the dpkg locate pass cares only whether an entry
is a regular file (tar.TypeReg). -/
inductive TypeFlag where
  | reg
  | dir
  | other
deriving DecidableEq, Repr

/-- One tar archive entry: header name, type flag, and the entry's raw
content (bytes, modelled as a string). -/
structure Entry where
  name : String
  typeflag : TypeFlag
  content : String
deriving DecidableEq, Repr

/-- A layer as the dpkg scanner sees it: a seekable tar archive, i.e. a
list of entries that every pass traverses from the start. -/
structure DLayer where
  entries : List Entry
deriving DecidableEq, Repr

/-- claircore package kinds: claircore.BINARY and claircore.SOURCE. -/
inductive PkgKind where
  | BINARY
  | SOURCE
deriving DecidableEq, Repr

/-- claircore.Package restricted to the fields the dpkg scanner writes:
Name, Version, Kind, Arch, PackageDB, RepositoryHint and the optional
Source back-reference (a *claircore.Package in Go, hence the recursive
occurrence). -/
inductive Package where
  | mk (name version : String) (kind : PkgKind) (arch packageDB repositoryHint : String)
      (source : Option Package)

def Package.name : Package → String
  | .mk n _ _ _ _ _ _ => n

def Package.version : Package → String
  | .mk _ v _ _ _ _ _ => v

def Package.kind : Package → PkgKind
  | .mk _ _ k _ _ _ _ => k

def Package.arch : Package → String
  | .mk _ _ _ a _ _ _ => a

def Package.packageDB : Package → String
  | .mk _ _ _ _ d _ _ => d

def Package.repositoryHint : Package → String
  | .mk _ _ _ _ _ h _ => h

def Package.source : Package → Option Package
  | .mk _ _ _ _ _ _ s => s

/-- Replace a package's RepositoryHint, mirroring the in-place
`p.RepositoryHint = ...` assignment through the `found` map. -/
def Package.setHint : Package → String → Package
  | .mk n v k a d _ s, h => .mk n v k a d h s

/-! ## The dpkg status-file parser

Modelled from the spec: the stanza parser provided by the external
go-dpkg module (github.com/tadasv/go-dpkg) is not part of this
repository; the spec's wire-format section describes the format as
newline-delimited stanzas of `Field: value` lines with recognized fields
Package, Version, Architecture and Source. -/

/-- One parsed status-file stanza, with the four fields the dpkg scanner
reads from the go-dpkg parser's output. -/
structure DpkgPkg where
  package : String
  version : String
  architecture : String
  source : String
deriving DecidableEq, Repr

/-- Split a `Field: value` line at the first colon; the value loses its
leading spaces. Lines without a colon carry no field. -/
def splitField (line : String) : Option (String × String) :=
  let pre := line.data.takeWhile (fun c => c ≠ ':')
  if pre.length = line.data.length then none
  else some (⟨pre⟩, ⟨(line.data.drop (pre.length + 1)).dropWhile (fun c => c = ' ')⟩)

/-- Fold one recognized field into a stanza record. -/
def applyField (p : DpkgPkg) (nv : String × String) : DpkgPkg :=
  match nv.1 with
  | "Package" => { p with package := nv.2 }
  | "Version" => { p with version := nv.2 }
  | "Architecture" => { p with architecture := nv.2 }
  | "Source" => { p with source := nv.2 }
  | _ => p

/-- Group the lines of a status file into stanzas separated by blank
lines; the accumulator holds the current stanza reversed. -/
def splitStanzas : List String → List String → List (List String)
  | [], cur => if cur = [] then [] else [cur.reverse]
  | l :: rest, cur =>
    if l = "" then
      if cur = [] then splitStanzas rest [] else cur.reverse :: splitStanzas rest []
    else splitStanzas rest (l :: cur)

/-- Modelled from the spec: parse a status file into stanza records
(what `dpkg.NewParser(db).Parse()` returns to the scanner). -/
def parseStatus (content : String) : List DpkgPkg :=
  (splitStanzas ((splitOnChar '\n' content.data).map (fun l => ⟨l⟩)) []).map
    (fun st => (st.filterMap splitField).foldl applyField ⟨"", "", "", ""⟩)

/-! ## The dpkg scanner (src/dpkg/scanner.go) -/

/-- Build one claircore.Package from a parsed stanza, mirroring
scanner.go lines 151-169: a BINARY package carrying the status file's
path as PackageDB, plus a synthesized SOURCE package sharing the binary
version whenever the Source field is non-empty. -/
def mkPackage (fn : String) (pkg : DpkgPkg) : Package :=
  Package.mk pkg.package pkg.version PkgKind.BINARY pkg.architecture fn ""
    (if pkg.source = "" then none
     else some (Package.mk pkg.source pkg.version PkgKind.SOURCE "" fn "" none))

/-- Set the hint on the first package (of a reversed list) with the
given name; identity when no package has the name. -/
def setHintFirst : List Package → String → String → List Package
  | [], _, _ => []
  | p :: rest, n, h =>
    if p.name = n then p.setHint h :: rest else p :: setHintFirst rest n h

/-- Apply a metadata hint through the `found` map: `found[n]` is the
package most recently inserted under name n, i.e. the last package of
the stanza list with that name; a name matching no package is ignored
(the scanner logs and continues). -/
def setHintLast (ps : List Package) (n h : String) : List Package :=
  (setHintFirst ps.reverse n h).reverse

/-- The auxiliary-metadata pass of scanner.go lines 180-207: walk the
archive again; every entry under `<dir>/info/` named `<n>[:<arch>].md5sums`
sets the RepositoryHint of the already-extracted package named n to the
hex-encoded digest of the entry's raw bytes. The digest function (Go
crypto/md5) is a parameter. -/
def md5Pass (md5 : String → List Nat) (es : List Entry) (p : String)
    (ps : List Package) : List Package :=
  let pfx := joinPath p "info" ++ "/"
  es.foldl
    (fun acc e =>
      if goHasPrefix e.name pfx && goHasSuffix e.name (".md5sums") then
        setHintLast acc (cutColon (goTrimSuffix (basePath e.name) (".md5sums")))
          (hexEncode (md5 e.content))
      else acc)
    ps

/-- All packages extracted from one confirmed database directory: parse
the status file's stanzas, then run the metadata pass over the archive. -/
def dirPackages (md5 : String → List Nat) (L : DLayer) (p : String)
    (content : String) : List Package :=
  md5Pass md5 L.entries p ((parseStatus content).map (mkPackage (joinPath p "status")))

/-- Increment the count of one key of the `loc` map, mirroring
`loc[filepath.Dir(h.Name)]++`. -/
def locIncr : List (String × Nat) → String → List (String × Nat)
  | [], k => [(k, 1)]
  | (k', v) :: rest, k =>
    if k' = k then (k', v + 1) :: rest else (k', v) :: locIncr rest k

/-- One entry of the locate pass of scanner.go lines 98-103: a regular
file whose base name is "status" or "available" (Go's two-label switch
case) increments the score of its directory. -/
def locStep (m : List (String × Nat)) (e : Entry) : List (String × Nat) :=
  if basePath e.name = "status" ∨ basePath e.name = "available" then
    if e.typeflag = TypeFlag.reg then locIncr m (dirPath e.name) else m
  else m

/-- The locate pass of scanner.go lines 88-104: stream every entry once,
scoring directories. -/
def locMap (es : List Entry) : List (String × Nat) :=
  es.foldl locStep []

/-- The directories the extract pass examines: exactly those whose score
is 2 (`if x != 2 { continue }`), in the map's iteration order. -/
def confirmedDirs (L : DLayer) : List String :=
  ((locMap L.entries).filter (fun kv => kv.2 = 2)).map Prod.fst

/-- Errors of the archive stream, as seen by tar.Reader.Next: the
distinguished io.EOF, or any other read error. Well-formed entry lists
never produce the latter. -/
inductive TarErr where
  | eof
  | other (msg : String)
deriving DecidableEq, Repr

/-- Result of one whole Scan call: Go's ([]*claircore.Package, error)
pair — where a nil slice is Option.none — extended with the panic
outcome so that reachability of the panic site is expressible. -/
inductive DpkgOutcome where
  | ok (pkgs : Option (List Package))
  | err (msg : String)
  | panicked (msg : String)

/-- One step of the per-directory loop: either an early return of the
whole Scan (including the panic), or a package list to append. -/
inductive DirStep where
  | exit (o : DpkgOutcome)
  | cont (ps : List Package)

/-- The status-file search loop of scanner.go lines 128-134, returning
the (db, err) pair the loop leaves behind: the first entry whose cleaned
name equals fn stops the loop with db set, otherwise the stream ends
with err = io.EOF. -/
def searchLoop (es : List Entry) (fn : String) : Option String × Option TarErr :=
  match es.find? (fun e => cleanPath e.name == fn) with
  | some e => (some e.content, none)
  | none => (none, some TarErr.eof)

/-- Process one confirmed directory, mirroring the switch of scanner.go
lines 136-146 in order: io.EOF returns (nil, nil) for the whole scan, any
other stream error fails the scan, a nil db despite a nil error panics,
and otherwise the directory's packages are extracted. -/
def processDir (md5 : String → List Nat) (L : DLayer) (p : String) : DirStep :=
  match searchLoop L.entries (joinPath p "status") with
  | (_, some TarErr.eof) => DirStep.exit (DpkgOutcome.ok none)
  | (_, some (TarErr.other m)) => DirStep.exit (DpkgOutcome.err m)
  | (none, none) => DirStep.exit (DpkgOutcome.panicked "file existed, but now doesn't")
  | (some content, none) => DirStep.cont (dirPackages md5 L p content)

/-- Append a directory's packages to the accumulated slice; appending
nothing keeps a nil slice nil, as Go's append-in-a-loop does. -/
def optAppend (acc : Option (List Package)) (ps : List Package) : Option (List Package) :=
  match ps with
  | [] => acc
  | _ => some (acc.getD [] ++ ps)

/-- The per-directory loop of scanner.go lines 109-211 over a given
directory order, threading the accumulated package slice. -/
def scanDirs (md5 : String → List Nat) (L : DLayer) :
    List String → Option (List Package) → DpkgOutcome
  | [], acc => DpkgOutcome.ok acc
  | p :: rest, acc =>
    match processDir md5 L p with
    | DirStep.exit o => o
    | DirStep.cont ps => scanDirs md5 L rest (optAppend acc ps)

/-- Scanner.Scan with the iteration order of the `loc` map made
explicit: Go ranges over a map, whose order is unspecified. -/
def dpkgScanOrd (md5 : String → List Nat) (dirs : List String) (L : DLayer) : DpkgOutcome :=
  scanDirs md5 L dirs none

/-- Scanner.Scan under the canonical (first-insertion) order of the
`loc` map. -/
def dpkgScan (md5 : String → List Nat) (L : DLayer) : DpkgOutcome :=
  dpkgScanOrd md5 (confirmedDirs L) L

/-! ## The Ubuntu distribution scanner (src/ubuntu/distributionscanner.go) -/

/-- The Ubuntu releases named by the signature list. -/
inductive Release where
  | Artful
  | Bionic
  | Cosmic
  | Disco
  | Precise
  | Trusty
  | Xenial
  | Eoan
  | Focal
  | Impish
deriving DecidableEq, Repr

/-- Modelled from the spec: claircore.Distribution is the classification
record for a layer's base OS; `releaseToDist` (defined outside the shown
excerpt) maps each release to its Distribution. Only the release
identity matters to the claims. -/
structure Distribution where
  release : Release
deriving DecidableEq, Repr

/-- Modelled from the spec: the release-to-Distribution table. -/
def releaseToDist (r : Release) : Distribution := ⟨r⟩

/-- One signature of the `ubuntuRegexes` table: a release and the
codename appearing in its pattern `(?is)\bubuntu\b.*\b<codename>\b`. -/
structure UbuntuRegex where
  release : Release
  codename : String

/-- The signature list of distributionscanner.go lines 28-69, in
declared order. -/
def ubuntuRegexes : List UbuntuRegex :=
  [⟨Release.Artful, "artful"⟩,
   ⟨Release.Bionic, "bionic"⟩,
   ⟨Release.Cosmic, "cosmic"⟩,
   ⟨Release.Disco, "disco"⟩,
   ⟨Release.Precise, "precise"⟩,
   ⟨Release.Trusty, "trusty"⟩,
   ⟨Release.Xenial, "xenial"⟩,
   ⟨Release.Eoan, "eoan"⟩,
   ⟨Release.Focal, "focal"⟩,
   ⟨Release.Impish, "impish"⟩]

/-- RE2 word characters: `\w` is [0-9A-Za-z_], and `\b` is a transition
between a word character and a non-word character or a string edge. -/
def isWordChar (c : Char) : Bool :=
  (('0' ≤ c && c ≤ '9') || ('A' ≤ c && c ≤ 'Z') || ('a' ≤ c && c ≤ 'z') || c = '_')

/-- ASCII lowercase folding, the effect of the `i` flag on the ASCII
patterns at hand. -/
def lowerAscii (c : Char) : Char :=
  if 'A' ≤ c && c ≤ 'Z' then Char.ofNat (c.toNat + 32) else c

/-- The (lowercase) word w occurs at position i of cs with a word
boundary on each side, comparing case-insensitively. -/
def matchesWordAt (w : List Char) (cs : List Char) (i : Nat) : Bool :=
  decide (i + w.length ≤ cs.length) &&
  ((cs.drop i).take w.length).map lowerAscii == w &&
  (i == 0 || !isWordChar (cs.getD (i - 1) ' ')) &&
  (i + w.length == cs.length || !isWordChar (cs.getD (i + w.length) ' '))

/-- Matching of `(?is)\bubuntu\b.*\b<codename>\b` against content: some
occurrence of the word "ubuntu" is followed, at any distance and across
newlines (the s flag), by an occurrence of the codename word. -/
def rmatch (codename : String) (content : String) : Bool :=
  let cs := content.data
  (List.range (cs.length + 1)).any fun i =>
    matchesWordAt "ubuntu".data cs i &&
      (List.range (cs.length + 1)).any fun j =>
        decide (i + 6 ≤ j) && matchesWordAt codename.data cs j

/-- DistributionScanner.parse (lines 121-128): try every signature in
declared order and return the first match's release as a Distribution;
nil when none match. -/
def ubuntuParse (content : String) : Option Distribution :=
  match ubuntuRegexes.find? (fun ur => rmatch ur.codename content) with
  | some ur => some (releaseToDist ur.release)
  | none => none

/-- The probe paths of distributionscanner.go lines 71-72. -/
def osReleasePath : String := "etc/os-release"

def lsbReleasePath : String := "etc/lsb-release"

/-- Failure modes of Layer.Files: an unreadable archive, or none of the
requested paths present. -/
inductive FilesErr where
  | unreadable
  | notFound
deriving DecidableEq, Repr

/-- A layer as the Ubuntu scanner sees it: whether its archive is
readable, and its path-to-content table. -/
structure ULayer where
  readable : Bool
  entries : List (String × String)
deriving DecidableEq, Repr

/-- Association lookup on a layer's path-to-content table. -/
def flookup : List (String × String) → String → Option String
  | [], _ => none
  | (k, v) :: rest, p => if k = p then some v else flookup rest p

/-- Modelled from the spec: Layer.Files (not part of the shown excerpt)
maps the requested well-known paths to their contents, the candidates
keeping the request order; it fails on an unreadable archive, and — as
the scanner's own doc comment requires for "neither file is found" to
reach the error branch — when none of the requested paths exist. -/
def layerFiles (L : ULayer) (paths : List String) : Except FilesErr (List String) :=
  if !L.readable then Except.error FilesErr.unreadable
  else
    let found := paths.filterMap (fun p => flookup L.entries p)
    if found.isEmpty then Except.error FilesErr.notFound else Except.ok found

/-- DistributionScanner.Scan (lines 95-115) as the returned
([]*claircore.Distribution, error) pair, a nil slice being Option.none:
a Files failure is swallowed into (nil, nil); otherwise the first
candidate whose content parses wins, and an empty non-nil slice is
returned when no candidate matches. -/
def ubuntuScan (L : ULayer) : Option (List Distribution) × Option FilesErr :=
  match layerFiles L [osReleasePath, lsbReleasePath] with
  | Except.error _ => (none, none)
  | Except.ok files =>
    match files.findSome? ubuntuParse with
    | some d => (some [d], none)
    | none => (some [], none)

/-! ## Derived observations used by the claims -/

/-- An entry contributing to directory d's locate-pass score: a regular
file with base name "status" or "available" whose (cleaned) directory is
d. -/
def EntScores (d : String) (e : Entry) : Prop :=
  (basePath e.name = "status" ∨ basePath e.name = "available") ∧
    e.typeflag = TypeFlag.reg ∧ dirPath e.name = d

instance (d : String) (e : Entry) : Decidable (EntScores d e) := by
  unfold EntScores
  infer_instance

/-- The locate-pass score of a directory: how many entries score for it. -/
def dbScore (L : DLayer) (d : String) : Nat :=
  L.entries.countP (fun e => decide (EntScores d e))

/-- How many regular-file entries named "status" lie in directory d. -/
def statusCount (L : DLayer) (d : String) : Nat :=
  L.entries.countP
    (fun e => decide (basePath e.name = "status" ∧ e.typeflag = TypeFlag.reg ∧ dirPath e.name = d))

/-- How many regular-file entries named "available" lie in directory d. -/
def availCount (L : DLayer) (d : String) : Nat :=
  L.entries.countP
    (fun e =>
      decide (basePath e.name = "available" ∧ e.typeflag = TypeFlag.reg ∧ dirPath e.name = d))

/-- Whether a Scan outcome is the process-terminating panic. -/
def isPanic : DpkgOutcome → Bool
  | DpkgOutcome.panicked _ => true
  | _ => false

/-- The package names of a successful scan outcome, in slice order; used
to tell two outcomes apart. -/
def outNames : DpkgOutcome → List String
  | DpkgOutcome.ok (some ps) => ps.map Package.name
  | _ => []

/-- What the extract pass yields for one directory when its status file
is found: the first matching entry's parsed and decorated packages. -/
def dirResult (md5 : String → List Nat) (L : DLayer) (p : String) : List Package :=
  match L.entries.find? (fun e => cleanPath e.name == joinPath p "status") with
  | some e => dirPackages md5 L p e.content
  | none => []

/-- Equality of Scan results up to reordering of the package slice. -/
def outcomePerm : DpkgOutcome → DpkgOutcome → Prop
  | DpkgOutcome.ok (some l1), DpkgOutcome.ok (some l2) => l1.Perm l2
  | a, b => a = b

/-- A digest placeholder for closed, concrete statements where the
actual MD5 value is irrelevant. -/
def mdZero : String → List Nat := fun _ => []

/-! ## Concrete fixture layers -/

/-- A layer whose dpkg database directory is confirmed by the locate
pass through two duplicate "available" entries, so that the extract pass
never finds a "status" file: the locate/extract disagreement scenario. -/
def vanishLayer : DLayer :=
  ⟨[⟨"var/lib/dpkg/available", TypeFlag.reg, "a"⟩,
    ⟨"var/lib/dpkg/available", TypeFlag.reg, "b"⟩]⟩

/-- A layer with one complete dpkg database whose status file holds one
stanza with no Source field. -/
def stanzaLayer : DLayer :=
  ⟨[⟨"var/lib/dpkg/status", TypeFlag.reg, "Package: foo\nVersion: 1.0\nArchitecture: amd64\n"⟩,
    ⟨"var/lib/dpkg/available", TypeFlag.reg, ""⟩]⟩

/-- As stanzaLayer, with a Source: bar field added to the stanza. -/
def sourceLayer : DLayer :=
  ⟨[⟨"var/lib/dpkg/status", TypeFlag.reg,
     "Package: foo\nVersion: 1.0\nArchitecture: amd64\nSource: bar\n"⟩,
    ⟨"var/lib/dpkg/available", TypeFlag.reg, ""⟩]⟩

/-- As stanzaLayer, with an info/ directory carrying a metadata file for
package foo (arch-qualified name) and one for an unknown package bar. -/
def metadataLayer : DLayer :=
  ⟨[⟨"var/lib/dpkg/status", TypeFlag.reg, "Package: foo\nVersion: 1.0\nArchitecture: amd64\n"⟩,
    ⟨"var/lib/dpkg/available", TypeFlag.reg, ""⟩,
    ⟨"var/lib/dpkg/info/foo:amd64.md5sums", TypeFlag.reg, "SUMS"⟩,
    ⟨"var/lib/dpkg/info/bar.md5sums", TypeFlag.reg, "X"⟩]⟩

/-- A layer holding two independent complete dpkg databases, whose
package slices are appended in whatever order the loc map is iterated. -/
def twoDbLayer : DLayer :=
  ⟨[⟨"a/status", TypeFlag.reg, "Package: p1\nVersion: 1\nArchitecture: amd64\n"⟩,
    ⟨"a/available", TypeFlag.reg, ""⟩,
    ⟨"b/status", TypeFlag.reg, "Package: p2\nVersion: 2\nArchitecture: amd64\n"⟩,
    ⟨"b/available", TypeFlag.reg, ""⟩]⟩

/-- Association lookup on the loc score map. -/
def alookup : List (String × Nat) → String → Option Nat
  | [], _ => none
  | (k', v) :: rest, k => if k' = k then some v else alookup rest k

/-! ## Lemmas about the locate pass -/

theorem locIncr_alookup_self (m : List (String × Nat)) (k : String) :
    alookup (locIncr m k) k = some ((alookup m k).getD 0 + 1) := by
  induction m with
  | nil => simp [locIncr, alookup]
  | cons kv rest ih =>
    obtain ⟨k', v⟩ := kv
    by_cases h : k' = k
    · subst h
      simp [locIncr, alookup]
    · simp [locIncr, alookup, h, ih]

theorem locIncr_alookup_other (m : List (String × Nat)) (k k' : String) (h : k' ≠ k) :
    alookup (locIncr m k) k' = alookup m k' := by
  have h' : k ≠ k' := Ne.symm h
  induction m with
  | nil => simp [locIncr, alookup, h']
  | cons kv rest ih =>
    obtain ⟨k0, v⟩ := kv
    by_cases h0 : k0 = k
    · subst h0
      simp [locIncr, alookup, h']
    · by_cases h1 : k0 = k'
      · subst h1
        simp [locIncr, alookup, h0, ih]
      · simp [locIncr, alookup, h0, h1, ih]

theorem locStep_alookup_pos (m : List (String × Nat)) (e : Entry) (d : String)
    (h : EntScores d e) :
    alookup (locStep m e) d = some ((alookup m d).getD 0 + 1) := by
  obtain ⟨h1, h2, h3⟩ := h
  rw [locStep, if_pos h1, if_pos h2, h3]
  exact locIncr_alookup_self m d

theorem locStep_alookup_neg (m : List (String × Nat)) (e : Entry) (d : String)
    (h : ¬EntScores d e) :
    alookup (locStep m e) d = alookup m d := by
  rw [locStep]
  by_cases h1 : basePath e.name = "status" ∨ basePath e.name = "available"
  · rw [if_pos h1]
    by_cases h2 : e.typeflag = TypeFlag.reg
    · rw [if_pos h2]
      have h3 : dirPath e.name ≠ d := fun hd => h ⟨h1, h2, hd⟩
      exact locIncr_alookup_other m (dirPath e.name) d (fun hh => h3 hh.symm)
    · rw [if_neg h2]
  · rw [if_neg h1]

/-- Locate-pass score of directory d over a list of entries. -/
def dbCountL (es : List Entry) (d : String) : Nat :=
  es.countP (fun e => decide (EntScores d e))

theorem locFold_alookup (d : String) :
    ∀ (es : List Entry) (m : List (String × Nat)),
      alookup (es.foldl locStep m) d =
        if dbCountL es d = 0 then alookup m d
        else some ((alookup m d).getD 0 + dbCountL es d) := by
  intro es
  induction es with
  | nil => intro m; simp [dbCountL]
  | cons e rest ih =>
    intro m
    rw [List.foldl_cons, ih (locStep m e)]
    by_cases h : EntScores d e
    · have hc : dbCountL (e :: rest) d = dbCountL rest d + 1 := by
        simp [dbCountL, List.countP_cons, h]
      rw [hc]
      by_cases h0 : dbCountL rest d = 0
      · rw [if_pos h0, h0, if_neg (Nat.succ_ne_zero 0), locStep_alookup_pos m e d h]
      · rw [if_neg h0, if_neg (by omega), locStep_alookup_pos m e d h]
        simp
        omega
    · have hc : dbCountL (e :: rest) d = dbCountL rest d := by
        simp [dbCountL, List.countP_cons, h]
      rw [hc, locStep_alookup_neg m e d h]

theorem locMap_alookup (es : List Entry) (d : String) :
    alookup (locMap es) d =
      if dbCountL es d = 0 then none else some (dbCountL es d) := by
  rw [locMap, locFold_alookup d es []]
  by_cases h : dbCountL es d = 0
  · rw [if_pos h, if_pos h]
    rfl
  · rw [if_neg h, if_neg h]
    simp [alookup]

theorem locIncr_keys (m : List (String × Nat)) (k : String) :
    (locIncr m k).map Prod.fst =
      if k ∈ m.map Prod.fst then m.map Prod.fst else m.map Prod.fst ++ [k] := by
  induction m with
  | nil => simp [locIncr]
  | cons kv rest ih =>
    obtain ⟨k0, v⟩ := kv
    by_cases h0 : k0 = k
    · subst h0
      simp [locIncr]
    · simp only [locIncr, if_neg h0, List.map_cons, List.mem_cons]
      rw [ih]
      by_cases hm : k ∈ rest.map Prod.fst
      · simp [hm, h0]
      · simp [hm, h0, Ne.symm h0]

theorem locIncr_keys_nodup (m : List (String × Nat)) (k : String)
    (h : (m.map Prod.fst).Nodup) : ((locIncr m k).map Prod.fst).Nodup := by
  rw [locIncr_keys]
  by_cases hm : k ∈ m.map Prod.fst
  · rwa [if_pos hm]
  · rw [if_neg hm]
    simp [List.nodup_append, h, hm]

theorem locStep_keys_nodup (m : List (String × Nat)) (e : Entry)
    (h : (m.map Prod.fst).Nodup) : ((locStep m e).map Prod.fst).Nodup := by
  rw [locStep]
  by_cases h1 : basePath e.name = "status" ∨ basePath e.name = "available"
  · rw [if_pos h1]
    by_cases h2 : e.typeflag = TypeFlag.reg
    · rw [if_pos h2]
      exact locIncr_keys_nodup m (dirPath e.name) h
    · rwa [if_neg h2]
  · rwa [if_neg h1]

theorem locFold_keys_nodup :
    ∀ (es : List Entry) (m : List (String × Nat)),
      (m.map Prod.fst).Nodup → ((es.foldl locStep m).map Prod.fst).Nodup := by
  intro es
  induction es with
  | nil => intro m h; exact h
  | cons e rest ih =>
    intro m h
    exact ih (locStep m e) (locStep_keys_nodup m e h)

theorem locMap_keys_nodup (es : List Entry) : ((locMap es).map Prod.fst).Nodup :=
  locFold_keys_nodup es [] (by simp)

theorem alookup_of_mem (m : List (String × Nat)) (d : String) (v : Nat)
    (hnd : (m.map Prod.fst).Nodup) (hm : (d, v) ∈ m) : alookup m d = some v := by
  induction m with
  | nil => cases hm
  | cons kv rest ih =>
    obtain ⟨k0, v0⟩ := kv
    rcases List.mem_cons.mp hm with hh | hh
    · obtain ⟨h1, h2⟩ := Prod.mk.injEq .. ▸ hh
      cases hh
      simp [alookup]
    · have hk0 : k0 ≠ d := by
        intro he
        subst he
        have : k0 ∈ rest.map Prod.fst := List.mem_map.mpr ⟨(k0, v), hh, rfl⟩
        exact (List.nodup_cons.mp (by simpa using hnd)).1 this
      rw [alookup, if_neg hk0]
      exact ih (List.nodup_cons.mp (by simpa using hnd)).2 hh

theorem mem_of_alookup (m : List (String × Nat)) (d : String) (v : Nat)
    (h : alookup m d = some v) : (d, v) ∈ m := by
  induction m with
  | nil => cases h
  | cons kv rest ih =>
    obtain ⟨k0, v0⟩ := kv
    by_cases hk : k0 = d
    · subst hk
      rw [alookup, if_pos rfl] at h
      cases h
      exact List.mem_cons_self _ _
    · rw [alookup, if_neg hk] at h
      exact List.mem_cons_of_mem _ (ih h)

/-- The locate pass confirms exactly the directories whose score is 2. -/
theorem mem_confirmedDirs_iff (L : DLayer) (d : String) :
    d ∈ confirmedDirs L ↔ dbScore L d = 2 := by
  constructor
  · intro h
    rw [confirmedDirs] at h
    obtain ⟨kv, hkv, hfst⟩ := List.mem_map.mp h
    have hmem := List.mem_filter.mp hkv
    have h2 : kv.2 = 2 := by simpa using hmem.2
    have : alookup (locMap L.entries) d = some 2 := by
      rw [← hfst, ← h2]
      exact alookup_of_mem _ _ _ (locMap_keys_nodup L.entries) hmem.1
    rw [locMap_alookup] at this
    by_cases hz : dbCountL L.entries d = 0
    · rw [if_pos hz] at this
      exact absurd this (by simp)
    · rw [if_neg hz] at this
      exact Option.some.inj this
  · intro h
    have hlk : alookup (locMap L.entries) d = some 2 := by
      rw [locMap_alookup]
      have : dbCountL L.entries d = 2 := h
      rw [this]
      simp
    have hm := mem_of_alookup _ _ _ hlk
    rw [confirmedDirs]
    exact List.mem_map.mpr ⟨(d, 2), List.mem_filter.mpr ⟨hm, by simp⟩, rfl⟩

theorem countP_ext {α : Type} (p q : α → Bool) (h : ∀ a, p a = q a) :
    ∀ l : List α, l.countP p = l.countP q := by
  intro l
  induction l with
  | nil => rfl
  | cons a t ih => simp only [List.countP_cons, h a, ih]

theorem countP_disjoint {α : Type} (p q : α → Bool)
    (h : ∀ a, ¬(p a = true ∧ q a = true)) :
    ∀ l : List α, l.countP (fun a => p a || q a) = l.countP p + l.countP q := by
  intro l
  induction l with
  | nil => rfl
  | cons a t ih =>
    simp only [List.countP_cons, ih]
    by_cases hp : p a = true
    · have hq : ¬q a = true := fun hq => h a ⟨hp, hq⟩
      simp only [hp, hq]
      simp
      omega
    · by_cases hq : q a = true
      · simp only [hp, hq]
        simp
        omega
      · simp [hp, hq]

/-- The locate-pass score splits as status entries plus available
entries: the two base names are mutually exclusive. -/
theorem dbScore_split (L : DLayer) (d : String) :
    dbScore L d = statusCount L d + availCount L d := by
  rw [dbScore, statusCount, availCount]
  have key : ∀ e : Entry, decide (EntScores d e) =
      (decide (basePath e.name = "status" ∧ e.typeflag = TypeFlag.reg ∧ dirPath e.name = d) ||
        decide (basePath e.name = "available" ∧ e.typeflag = TypeFlag.reg ∧ dirPath e.name = d)) := by
    intro e
    rw [← Bool.decide_or]
    apply decide_eq_decide.mpr
    unfold EntScores
    constructor
    · rintro ⟨hs | ha, hr, hd⟩
      · exact Or.inl ⟨hs, hr, hd⟩
      · exact Or.inr ⟨ha, hr, hd⟩
    · rintro (⟨hs, hr, hd⟩ | ⟨ha, hr, hd⟩)
      · exact ⟨Or.inl hs, hr, hd⟩
      · exact ⟨Or.inr ha, hr, hd⟩
  rw [countP_ext _ _ key]
  apply countP_disjoint
  intro e ⟨hs, ha⟩
  rw [decide_eq_true_eq] at hs ha
  have := hs.1 ▸ ha.1
  exact absurd this (by decide)

/-! ## Lemmas about the extract pass -/

/-- Every per-directory step is either the EOF early return (nil, nil)
or a package list to append: the error and panic arms are unreachable
over well-formed archives. -/
theorem processDir_cases (md5 : String → List Nat) (L : DLayer) (p : String) :
    processDir md5 L p = DirStep.exit (DpkgOutcome.ok none) ∨
      processDir md5 L p = DirStep.cont (dirResult md5 L p) := by
  rw [processDir, searchLoop, dirResult]
  cases h : L.entries.find? (fun e => cleanPath e.name == joinPath p "status") with
  | none => left; rfl
  | some e => right; rfl

theorem scanDirs_no_panic (md5 : String → List Nat) (L : DLayer) :
    ∀ (dirs : List String) (acc : Option (List Package)),
      isPanic (scanDirs md5 L dirs acc) = false := by
  intro dirs
  induction dirs with
  | nil => intro acc; rfl
  | cons p rest ih =>
    intro acc
    rw [scanDirs]
    rcases processDir_cases md5 L p with h | h
    · rw [h]
      rfl
    · rw [h]
      exact ih (optAppend acc (dirResult md5 L p))

/-- If any directory of the list has no findable status entry, the scan
early-returns (nil, nil), whatever was accumulated before. -/
theorem scanDirs_fail (md5 : String → List Nat) (L : DLayer) :
    ∀ (dirs : List String) (acc : Option (List Package)) (p : String), p ∈ dirs →
      L.entries.find? (fun e => cleanPath e.name == joinPath p "status") = none →
      scanDirs md5 L dirs acc = DpkgOutcome.ok none := by
  intro dirs
  induction dirs with
  | nil => intro acc p hp; cases hp
  | cons q rest ih =>
    intro acc p hp hf
    rw [scanDirs]
    rcases List.mem_cons.mp hp with he | he
    · subst he
      rw [processDir, searchLoop, hf]
    · rcases processDir_cases md5 L q with h | h
      · rw [h]
      · rw [h]
        exact ih (optAppend acc (dirResult md5 L q)) p he hf

/-- If every directory of the list has a findable status entry, the scan
completes and appends each directory's result in order. -/
theorem scanDirs_succ (md5 : String → List Nat) (L : DLayer) :
    ∀ (dirs : List String) (acc : Option (List Package)),
      (∀ p ∈ dirs,
        L.entries.find? (fun e => cleanPath e.name == joinPath p "status") ≠ none) →
      scanDirs md5 L dirs acc =
        DpkgOutcome.ok ((dirs.map (dirResult md5 L)).foldl optAppend acc) := by
  intro dirs
  induction dirs with
  | nil => intro acc _; rfl
  | cons q rest ih =>
    intro acc hall
    rw [scanDirs]
    have hq := hall q (List.mem_cons_self q rest)
    cases h : L.entries.find? (fun e => cleanPath e.name == joinPath q "status") with
    | none => exact absurd h hq
    | some e =>
      have hpd : processDir md5 L q = DirStep.cont (dirResult md5 L q) := by
        rw [processDir, searchLoop, h, dirResult, h]
      rw [hpd, List.map_cons, List.foldl_cons]
      exact ih (optAppend acc (dirResult md5 L q)) (fun p hp => hall p (List.mem_cons_of_mem q hp))

/-- Closed form of the append fold: nothing appended keeps the slice as
it was, otherwise everything flows into one flattened append. -/
theorem foldl_optAppend (ls : List (List Package)) :
    ∀ acc : Option (List Package),
      ls.foldl optAppend acc =
        if ls.flatten.isEmpty then acc else some (acc.getD [] ++ ls.flatten) := by
  induction ls with
  | nil => intro acc; simp
  | cons ps rest ih =>
    intro acc
    rw [List.foldl_cons, List.flatten_cons, ih (optAppend acc ps)]
    cases ps with
    | nil =>
      simp [optAppend]
    | cons x xs =>
      have hne : (x :: xs ++ rest.flatten).isEmpty = false := by simp
      rw [hne]
      simp only [Bool.false_eq_true, if_false]
      cases hr : rest.flatten.isEmpty with
      | true =>
        rw [List.isEmpty_iff] at hr
        rw [hr]
        simp [optAppend]
      | false =>
        simp [optAppend]

/-- find? returns the first satisfying element: from any witness index, a
no-later index whose element is returned. -/
theorem find?_first {α : Type} (p : α → Bool) :
    ∀ (l : List α) (i : Fin l.length), p (l.get i) = true →
      ∃ k : Fin l.length, k.val ≤ i.val ∧ p (l.get k) = true ∧
        l.find? p = some (l.get k) := by
  intro l
  induction l with
  | nil => intro i; exact absurd i.isLt (by simp)
  | cons a t ih =>
    intro i hp
    by_cases ha : p a = true
    · refine ⟨⟨0, by simp⟩, by simp, by simp [ha], ?_⟩
      simp [List.find?_cons, ha]
    · obtain ⟨iv, hlt⟩ := i
      cases iv with
      | zero => exact absurd (by simpa using hp) ha
      | succ j =>
        have hj : j < t.length := by simpa using hlt
        have hp' : p (t.get ⟨j, hj⟩) = true := by simpa using hp
        obtain ⟨k, hk1, hk2, hk3⟩ := ih ⟨j, hj⟩ hp'
        refine ⟨⟨k.val + 1, by simp [k.isLt]⟩, by simpa using hk1, by simpa using hk2, ?_⟩
        have hfind : (a :: t).find? p = t.find? p := by
          simp [List.find?_cons, ha]
        rw [hfind, hk3]
        rfl

/-! ## Claim C5 -/

/-- C5: whenever a probe-file content matches two signatures of the
declared list, parse returns the release of a no-later matching
signature — the earliest match in declared signature order wins. -/
theorem claim_C5 (content : String) (i j : Fin ubuntuRegexes.length) (_hij : i < j)
    (hi : rmatch (ubuntuRegexes.get i).codename content = true)
    (_hj : rmatch (ubuntuRegexes.get j).codename content = true) :
    ∃ k : Fin ubuntuRegexes.length, k.val ≤ i.val ∧
      rmatch (ubuntuRegexes.get k).codename content = true ∧
      ubuntuParse content = some (releaseToDist (ubuntuRegexes.get k).release) := by
  obtain ⟨k, h1, h2, h3⟩ :=
    find?_first (fun ur => rmatch ur.codename content) ubuntuRegexes i (by exact hi)
  exact ⟨k, h1, h2, by rw [ubuntuParse, h3]⟩

set_option maxHeartbeats 2000000 in
theorem claim_C5_witness :
    ((⟨0, by decide⟩ : Fin ubuntuRegexes.length) < ⟨1, by decide⟩) ∧
    rmatch (ubuntuRegexes.get ⟨0, by decide⟩).codename "ubuntu artful bionic" = true ∧
    rmatch (ubuntuRegexes.get ⟨1, by decide⟩).codename "ubuntu artful bionic" = true ∧
    ∃ k : Fin ubuntuRegexes.length, k.val ≤ 0 ∧
      rmatch (ubuntuRegexes.get k).codename "ubuntu artful bionic" = true ∧
      ubuntuParse "ubuntu artful bionic" =
        some (releaseToDist (ubuntuRegexes.get k).release) :=
  ⟨by decide, by decide, by decide,
    claim_C5 "ubuntu artful bionic" ⟨0, by decide⟩ ⟨1, by decide⟩ (by decide) (by decide)
      (by decide)⟩

/-! ## Claims C4 and C10 -/

/-- C4: a readable layer with neither probe file present yields absent —
(nil, nil) — while a layer where Files succeeds but no candidate content
matches any signature yields the empty non-nil slice with no error. -/
theorem claim_C4 (L : ULayer) (hr : L.readable = true) :
    (flookup L.entries osReleasePath = none → flookup L.entries lsbReleasePath = none →
      ubuntuScan L = (none, none)) ∧
    (∀ fs, layerFiles L [osReleasePath, lsbReleasePath] = Except.ok fs →
      (∀ c ∈ fs, ubuntuParse c = none) → ubuntuScan L = (some [], none)) := by
  constructor
  · intro h1 h2
    have hlf : layerFiles L [osReleasePath, lsbReleasePath] = Except.error FilesErr.notFound := by
      rw [layerFiles, hr]
      simp [h1, h2]
    rw [ubuntuScan, hlf]
  · intro fs hfs hnone
    simp [ubuntuScan, hfs, List.findSome?_eq_none_iff.mpr hnone]

theorem claim_C4_witness :
    ubuntuScan ⟨true, []⟩ = (none, none) ∧
    ubuntuScan ⟨true, [(osReleasePath, "no match here")]⟩ = (some [], none) :=
  ⟨(claim_C4 ⟨true, []⟩ rfl).1 rfl rfl,
   (claim_C4 ⟨true, [(osReleasePath, "no match here")]⟩ rfl).2 ["no match here"] rfl
     (by decide)⟩

/-- C10: the Ubuntu scanner is total over errors — its error component
is always nil — and an unreadable archive (a Layer.Files failure) is
swallowed into the absent result (nil, nil). -/
theorem claim_C10 (L : ULayer) :
    (ubuntuScan L).2 = none ∧ ubuntuScan ⟨false, L.entries⟩ = (none, none) := by
  constructor
  · cases h : layerFiles L [osReleasePath, lsbReleasePath] with
    | error e => simp [ubuntuScan, h]
    | ok fs =>
      cases h2 : fs.findSome? ubuntuParse with
      | some d => simp [ubuntuScan, h, h2]
      | none => simp [ubuntuScan, h, h2]
  · rfl

/-! ## Claims C1, C3 and C9 -/

/-- C9: whenever some confirmed directory's status file cannot be found
by the extract pass — the stream reaches io.EOF first — the whole Scan
returns (nil, nil): the layer is treated as having no database. -/
theorem claim_C9 (md5 : String → List Nat) (L : DLayer) (p : String)
    (hp : p ∈ confirmedDirs L)
    (hf : L.entries.find? (fun e => cleanPath e.name == joinPath p "status") = none) :
    dpkgScan md5 L = DpkgOutcome.ok none := by
  rw [dpkgScan, dpkgScanOrd]
  exact scanDirs_fail md5 L (confirmedDirs L) none p hp hf

theorem claim_C9_witness :
    ("var/lib/dpkg" ∈ confirmedDirs vanishLayer) ∧
    (vanishLayer.entries.find?
      (fun e => cleanPath e.name == joinPath "var/lib/dpkg" "status") = none) ∧
    dpkgScan mdZero vanishLayer = DpkgOutcome.ok none :=
  ⟨by decide, by decide,
    claim_C9 mdZero vanishLayer "var/lib/dpkg" (by decide) (by decide)⟩

/-- C1 counterexample: on vanishLayer the locate pass confirms
var/lib/dpkg, the extract pass cannot find its status file, and Scan
returns (nil, nil) — an absent result, not the typed InvariantViolation
error the claim requires (and no panic either). -/
theorem claim_C1_counterexample :
    ("var/lib/dpkg" ∈ confirmedDirs vanishLayer) ∧
    (vanishLayer.entries.find?
      (fun e => cleanPath e.name == joinPath "var/lib/dpkg" "status") = none) ∧
    dpkgScan mdZero vanishLayer = DpkgOutcome.ok none ∧
    isPanic (dpkgScan mdZero vanishLayer) = false :=
  ⟨by decide, by decide, rfl, rfl⟩

/-- C1 amended: Scan never panics — over any directory order the panic
arm of the extract-pass switch is unreachable, because the search loop
only ends with the file found or with io.EOF, which is mapped to the
absent result instead of an InvariantViolation error. -/
theorem claim_C1_amended :
    (∀ (md5 : String → List Nat) (dirs : List String) (L : DLayer),
      isPanic (dpkgScanOrd md5 dirs L) = false) ∧
    (∀ (md5 : String → List Nat) (L : DLayer), isPanic (dpkgScan md5 L) = false) :=
  ⟨fun md5 dirs L => scanDirs_no_panic md5 L dirs none,
   fun md5 L => scanDirs_no_panic md5 L (confirmedDirs L) none⟩

/-- C3 counterexample: two duplicate regular "available" entries alone
score var/lib/dpkg to 2, so the directory is examined as a database even
though no "status" entry — one of the two required filenames — exists. -/
theorem claim_C3_counterexample :
    ("var/lib/dpkg" ∈ confirmedDirs vanishLayer) ∧
    statusCount vanishLayer "var/lib/dpkg" = 0 ∧
    availCount vanishLayer "var/lib/dpkg" = 2 :=
  ⟨by decide, by decide, by decide⟩

/-- C3 amended: a directory is examined iff its score — the number of
regular-file entries named "status" or "available" lying in it — is
exactly 2; when the directory holds at most one entry of each required
name, that is equivalent to both required files being present, and in
particular a directory containing only one of the two is never
examined. -/
theorem claim_C3_amended (L : DLayer) (d : String) :
    (d ∈ confirmedDirs L ↔ dbScore L d = 2) ∧
    (statusCount L d ≤ 1 → availCount L d ≤ 1 →
      (d ∈ confirmedDirs L ↔ statusCount L d = 1 ∧ availCount L d = 1)) := by
  refine ⟨mem_confirmedDirs_iff L d, ?_⟩
  intro hs ha
  rw [mem_confirmedDirs_iff L d, dbScore_split]
  omega

theorem claim_C3_witness :
    (statusCount stanzaLayer "var/lib/dpkg" ≤ 1) ∧
    (availCount stanzaLayer "var/lib/dpkg" ≤ 1) ∧
    ("var/lib/dpkg" ∈ confirmedDirs stanzaLayer ↔
      statusCount stanzaLayer "var/lib/dpkg" = 1 ∧
        availCount stanzaLayer "var/lib/dpkg" = 1) :=
  ⟨by decide, by decide,
    (claim_C3_amended stanzaLayer "var/lib/dpkg").2 (by decide) (by decide)⟩

/-! ## Claim C2 -/

/-- C2 counterexample: on a layer with two complete dpkg databases, two
runs of Scan that iterate the loc map in its two possible orders — both
legal, since Go's map iteration order is unspecified — return the
package slice in different orders, so the outputs differ. -/
theorem claim_C2_counterexample :
    (["b", "a"].Perm (confirmedDirs twoDbLayer)) ∧
    (outNames (dpkgScanOrd mdZero ["b", "a"] twoDbLayer) ==
      outNames (dpkgScan mdZero twoDbLayer)) = false := by
  constructor
  · have h : confirmedDirs twoDbLayer = ["a", "b"] := by decide
    rw [h]
    exact List.Perm.swap "a" "b" []
  · rfl

/-- C2 amended: re-running the dpkg scanner yields the same findings up
to reordering — any two loc-map iteration orders give Perm-related
outcomes — and the Ubuntu scanner, over the candidate list Files yields
for a layer carrying both probe files, returns the release parsed from
the first candidate that matches any signature. -/
theorem claim_C2_amended :
    (∀ (md5 : String → List Nat) (L : DLayer) (σ : List String),
      σ.Perm (confirmedDirs L) →
      outcomePerm (dpkgScanOrd md5 σ L) (dpkgScan md5 L)) ∧
    (∀ (c1 c2 : String) (d : Distribution), ubuntuParse c1 = some d →
      ubuntuScan ⟨true, [(osReleasePath, c1), (lsbReleasePath, c2)]⟩ = (some [d], none)) ∧
    (∀ (c1 c2 : String) (d : Distribution), ubuntuParse c1 = none → ubuntuParse c2 = some d →
      ubuntuScan ⟨true, [(osReleasePath, c1), (lsbReleasePath, c2)]⟩ = (some [d], none)) := by
  refine ⟨?_, ?_, ?_⟩
  · intro md5 L σ hperm
    by_cases hfail : ∃ p ∈ confirmedDirs L,
        L.entries.find? (fun e => cleanPath e.name == joinPath p "status") = none
    · obtain ⟨p, hp, hf⟩ := hfail
      have h1 : dpkgScanOrd md5 σ L = DpkgOutcome.ok none := by
        rw [dpkgScanOrd]
        exact scanDirs_fail md5 L σ none p (hperm.mem_iff.mpr hp) hf
      have h2 : dpkgScan md5 L = DpkgOutcome.ok none := by
        rw [dpkgScan, dpkgScanOrd]
        exact scanDirs_fail md5 L (confirmedDirs L) none p hp hf
      rw [h1, h2]
      exact rfl
    · push_neg at hfail
      have hσ : ∀ p ∈ σ,
          L.entries.find? (fun e => cleanPath e.name == joinPath p "status") ≠ none :=
        fun p hp => hfail p (hperm.subset hp)
      have h1 : dpkgScanOrd md5 σ L =
          DpkgOutcome.ok ((σ.map (dirResult md5 L)).foldl optAppend none) := by
        rw [dpkgScanOrd]
        exact scanDirs_succ md5 L σ none hσ
      have h2 : dpkgScan md5 L =
          DpkgOutcome.ok (((confirmedDirs L).map (dirResult md5 L)).foldl optAppend none) := by
        rw [dpkgScan, dpkgScanOrd]
        exact scanDirs_succ md5 L (confirmedDirs L) none hfail
      rw [h1, h2, foldl_optAppend, foldl_optAppend]
      have hfl : (σ.map (dirResult md5 L)).flatten.Perm
          ((confirmedDirs L).map (dirResult md5 L)).flatten :=
        List.Perm.flatten (hperm.map (dirResult md5 L))
      cases hemp : (σ.map (dirResult md5 L)).flatten.isEmpty with
      | true =>
        have e1 : (σ.map (dirResult md5 L)).flatten = [] := List.isEmpty_iff.mp hemp
        rw [e1] at hfl
        have e2 : ((confirmedDirs L).map (dirResult md5 L)).flatten = [] :=
          hfl.symm.eq_nil
        have e2' : ((confirmedDirs L).map (dirResult md5 L)).flatten.isEmpty = true := by
          rw [e2]
          rfl
        rw [e2']
        exact rfl
      | false =>
        have e2' : ((confirmedDirs L).map (dirResult md5 L)).flatten.isEmpty = false := by
          cases h2e : ((confirmedDirs L).map (dirResult md5 L)).flatten.isEmpty with
          | false => rfl
          | true =>
            have e2 := List.isEmpty_iff.mp h2e
            rw [e2] at hfl
            have e1 := hfl.eq_nil
            rw [e1] at hemp
            cases hemp
        rw [e2']
        exact hfl
  · intro c1 c2 d h
    have hf : layerFiles ⟨true, [(osReleasePath, c1), (lsbReleasePath, c2)]⟩
        [osReleasePath, lsbReleasePath] = Except.ok [c1, c2] := rfl
    simp [ubuntuScan, hf, List.findSome?_cons, h]
  · intro c1 c2 d h1 h2
    have hf : layerFiles ⟨true, [(osReleasePath, c1), (lsbReleasePath, c2)]⟩
        [osReleasePath, lsbReleasePath] = Except.ok [c1, c2] := rfl
    simp [ubuntuScan, hf, List.findSome?_cons, h1, h2]

theorem claim_C2_witness :
    (["b", "a"].Perm (confirmedDirs twoDbLayer)) ∧
    outcomePerm (dpkgScanOrd mdZero ["b", "a"] twoDbLayer) (dpkgScan mdZero twoDbLayer) ∧
    (ubuntuParse "ubuntu focal" = some (releaseToDist Release.Focal)) ∧
    ubuntuScan ⟨true, [(osReleasePath, "ubuntu focal"), (lsbReleasePath, "ubuntu bionic")]⟩ =
      (some [releaseToDist Release.Focal], none) := by
  have hperm : (["b", "a"] : List String).Perm (confirmedDirs twoDbLayer) := by
    have h : confirmedDirs twoDbLayer = ["a", "b"] := by decide
    rw [h]
    exact List.Perm.swap "a" "b" []
  exact ⟨hperm, claim_C2_amended.1 mdZero twoDbLayer ["b", "a"] hperm, by decide,
    claim_C2_amended.2.1 "ubuntu focal" "ubuntu bionic" (releaseToDist Release.Focal)
      (by decide)⟩

/-! ## Claims C6, C7 and C8 -/

/-- C6: a stanza carrying exactly Package: foo, Version: 1.0 and
Architecture: amd64 yields exactly one BINARY package with those fields,
PackageDB the status file's path and no Source reference; generally, any
parsed stanza record with an empty Source field maps to a BINARY package
with a nil Source. -/
theorem claim_C6 :
    (∀ md5 : String → List Nat, dpkgScan md5 stanzaLayer =
      DpkgOutcome.ok
        (some [Package.mk "foo" "1.0" PkgKind.BINARY "amd64" "var/lib/dpkg/status" "" none])) ∧
    (∀ fn n v a : String, mkPackage fn ⟨n, v, a, ""⟩ =
      Package.mk n v PkgKind.BINARY a fn "" none) :=
  ⟨fun _ => rfl, fun _ _ _ _ => rfl⟩

/-- C7: a stanza additionally carrying Source: bar yields a BINARY
package whose Source reference is a synthesized SOURCE package named bar
with the binary's version; generally, any parsed stanza record with a
non-empty Source field maps this way. -/
theorem claim_C7 :
    (∀ md5 : String → List Nat, dpkgScan md5 sourceLayer =
      DpkgOutcome.ok
        (some [Package.mk "foo" "1.0" PkgKind.BINARY "amd64" "var/lib/dpkg/status" ""
          (some (Package.mk "bar" "1.0" PkgKind.SOURCE "" "var/lib/dpkg/status" "" none))])) ∧
    (∀ fn n v a s : String, s ≠ "" → mkPackage fn ⟨n, v, a, s⟩ =
      Package.mk n v PkgKind.BINARY a fn ""
        (some (Package.mk s v PkgKind.SOURCE "" fn "" none))) := by
  refine ⟨fun _ => rfl, ?_⟩
  intro fn n v a s hs
  simp [mkPackage, hs]

theorem claim_C7_witness :
    (("bar" : String) ≠ "") ∧
    mkPackage "db/status" ⟨"n", "v", "a", "bar"⟩ =
      Package.mk "n" "v" PkgKind.BINARY "a" "db/status" ""
        (some (Package.mk "bar" "v" PkgKind.SOURCE "" "db/status" "" none)) :=
  ⟨by decide, claim_C7.2 "db/status" "n" "v" "a" "bar" (by decide)⟩

theorem setHintFirst_id (l : List Package) (nm h : String)
    (hnone : ∀ q ∈ l, q.name ≠ nm) : setHintFirst l nm h = l := by
  induction l with
  | nil => rfl
  | cons p rest ih =>
    rw [setHintFirst, if_neg (hnone p (List.mem_cons_self p rest)),
      ih (fun q hq => hnone q (List.mem_cons_of_mem p hq))]

/-- C8: in a confirmed database directory, a metadata file named
foo:amd64.md5sums under the parallel info/ directory sets the
RepositoryHint of the extracted package foo to the hex-encoded digest of
the file's raw bytes, while the metadata file of the unknown package bar
is ignored and no error is produced; generally, applying a hint for a
name no extracted package carries leaves the packages unchanged. -/
theorem claim_C8 :
    (∀ md5 : String → List Nat, dpkgScan md5 metadataLayer =
      DpkgOutcome.ok
        (some [Package.mk "foo" "1.0" PkgKind.BINARY "amd64" "var/lib/dpkg/status"
          (hexEncode (md5 "SUMS")) none])) ∧
    (∀ (ps : List Package) (nm h : String), (∀ q ∈ ps, q.name ≠ nm) →
      setHintLast ps nm h = ps) := by
  refine ⟨fun _ => rfl, ?_⟩
  intro ps nm h hnone
  rw [setHintLast,
    setHintFirst_id ps.reverse nm h (fun q hq => hnone q (List.mem_reverse.mp hq)),
    List.reverse_reverse]

theorem claim_C8_witness :
    (∀ q ∈ [Package.mk "foo" "1.0" PkgKind.BINARY "amd64" "db" "" none], q.name ≠ "bar") ∧
    setHintLast [Package.mk "foo" "1.0" PkgKind.BINARY "amd64" "db" "" none] "bar" "h" =
      [Package.mk "foo" "1.0" PkgKind.BINARY "amd64" "db" "" none] :=
  ⟨by decide,
    claim_C8.2 [Package.mk "foo" "1.0" PkgKind.BINARY "amd64" "db" "" none] "bar" "h"
      (by decide)⟩
